import Mathlib

set_option maxHeartbeats 1000000
set_option maxRecDepth 4000

/-!
Verification of the multi-agent content generation system.

Shallow embedding of the repository code:
  - data model from src/src/models/schemas.py
  - retry logic from src/src/llm_client.py
  - agents from src/src/agents/
  - ingredient comparison from src/src/content_blocks/generators.py
  - the sequential pipeline runner from src/src/orchestrator.py
  - the dependency-ordered execution engine used by main.py and the tests
    (AgentOrchestrator.execute_dag), whose definition is absent from the
    source snapshot and is therefore modelled from the specification.
-/

/-- Product record, from src/src/models/schemas.py (class Product). All eight
fields are required strings or string lists. -/
structure Product where
  name : String
  concentration : String
  skin_type : List String
  key_ingredients : List String
  benefits : List String
  how_to_use : String
  side_effects : String
  price : String
deriving DecidableEq

/-- Question record, from src/src/models/schemas.py (class Question). The
answer field is optional with default None. -/
structure Question where
  id : String
  text : String
  category : String
  answer : Option String
deriving DecidableEq

/-! ## External generation client, from src/src/llm_client.py -/

/-- Outcome of one attempted call to the external chat completion endpoint:
either a response text or a raised exception carrying a message string. -/
inductive GenOutcome
  | success (text : String)
  | failure (error_str : String)

/-- How LLMClient.generate terminates abnormally: re-raising a non-rate-limit
exception at once, or raising after the retry budget is exhausted. -/
inductive GenError
  | immediate (error_str : String)
  | maxRetriesExceeded
deriving DecidableEq

/-- Prefix test on character lists, used to embed the Python substring
operator. -/
def charsStartWith : List Char → List Char → Bool
  | _, [] => true
  | [], _ :: _ => false
  | c :: cs, p :: ps => c == p && charsStartWith cs ps

/-- Substring test on character lists: does the second list contain the first
as a contiguous run. -/
def charsContain (pat : List Char) : List Char → Bool
  | [] => pat.isEmpty
  | c :: cs => charsStartWith (c :: cs) pat || charsContain pat cs

/-- Python s2 in s1 on strings. -/
def strContainsSub (s pat : String) : Bool :=
  charsContain pat.data s.data

/-- Python s.lower(), embedded character by character. -/
def strToLower (s : String) : String :=
  String.mk (s.data.map Char.toLower)

/-- The rate-limit test of LLMClient.generate, line 38 of llm_client.py:
"rate" in error_str.lower() or "limit" in error_str.lower() or
"429" in error_str. -/
def isRateLimitError (error_str : String) : Bool :=
  strContainsSub (strToLower error_str) "rate" ||
  strContainsSub (strToLower error_str) "limit" ||
  strContainsSub error_str "429"

namespace LLMClient

/-- The retry loop of LLMClient.generate. The environment is a map from
attempt index to the outcome of that attempt; the fuel is the number of
attempts left in the budget. Returns the final outcome together with the list
of backoff waits performed, each wait being (attempt + 1) * 10 seconds as on
line 39 of llm_client.py. -/
def generateAux (outcomes : Nat → GenOutcome) : Nat → Nat → Except GenError String × List Nat
  | _, 0 => (Except.error GenError.maxRetriesExceeded, [])
  | attempt, fuel + 1 =>
    match outcomes attempt with
    | GenOutcome.success t => (Except.ok t, [])
    | GenOutcome.failure e =>
      if isRateLimitError e then
        let res := generateAux outcomes (attempt + 1) fuel
        (res.1, (attempt + 1) * 10 :: res.2)
      else
        (Except.error (GenError.immediate e), [])

/-- LLMClient.generate from src/src/llm_client.py lines 21-46: up to
max_retries attempts, sleeping with increasing backoff on rate-limit-like
failures, re-raising other failures immediately, and raising a
max-retries-exceeded failure when the budget is exhausted. -/
def generate (outcomes : Nat → GenOutcome) (max_retries : Nat) : Except GenError String × List Nat :=
  generateAux outcomes 0 max_retries

end LLMClient

/-! ## Agents, from src/src/agents/ -/

namespace ParserAgent

/-- ParserAgent.process from src/src/agents/parser_agent.py lines 19-30: the
body returns input_data unchanged. -/
def process {α : Type} (input_data : α) : α :=
  input_data

end ParserAgent

namespace QuestionGenerationAgent

/-- Declared dependencies of the questions agent, src/src/agents/question_agent.py line 23. -/
def dependencies : List String := ["parser"]

/-- QuestionGenerationAgent.can_execute, src/src/agents/question_agent.py
lines 25-36: returns True iff "parser" is in completed_agents. -/
def can_execute (completed_agents : List String) : Bool :=
  completed_agents.contains "parser"

end QuestionGenerationAgent

namespace FAQGenerationAgent

/-- Declared dependencies of the faq agent, src/src/agents/faq_agent.py line 23. -/
def dependencies : List String := ["parser", "questions"]

/-- FAQGenerationAgent.can_execute, src/src/agents/faq_agent.py lines 25-36:
all(dep in completed_agents for dep in self.dependencies). -/
def can_execute (completed_agents : List String) : Bool :=
  dependencies.all (fun dep => completed_agents.contains dep)

end FAQGenerationAgent

namespace ComparisonAgent

/-- Declared dependencies of the comparison agent, src/src/agents/comparison_agent.py line 23. -/
def dependencies : List String := ["parser"]

/-- ComparisonAgent.can_execute, src/src/agents/comparison_agent.py
lines 25-36: returns True iff "parser" is in completed_agents. -/
def can_execute (completed_agents : List String) : Bool :=
  completed_agents.contains "parser"

end ComparisonAgent

/-- Decoded JSON payload for the synthesized competitor product in
ComparisonAgent.execute: each of the eight product fields may be present or
absent in the decoded object. -/
structure CompetitorPayload where
  name : Option String
  concentration : Option String
  skin_type : Option (List String)
  key_ingredients : Option (List String)
  benefits : Option (List String)
  how_to_use : Option String
  side_effects : Option String
  price : Option String

namespace ComparisonAgent

/-- The default-filling block of ComparisonAgent.execute,
src/src/agents/comparison_agent.py lines 79-89: one setdefault per field,
then Product(**product_b_data). -/
def fill_defaults (product_b_data : CompetitorPayload) : Product :=
  { name := product_b_data.name.getD "Competitor Vitamin C Serum"
    concentration := product_b_data.concentration.getD "15% Vitamin C"
    skin_type := product_b_data.skin_type.getD ["Normal", "Dry"]
    key_ingredients := product_b_data.key_ingredients.getD ["Vitamin C", "Vitamin E"]
    benefits := product_b_data.benefits.getD ["Brightening", "Anti-aging"]
    how_to_use := product_b_data.how_to_use.getD "Apply 2-3 drops daily"
    side_effects := product_b_data.side_effects.getD "May cause mild irritation"
    price := product_b_data.price.getD "₹799" }

end ComparisonAgent

/-! ## FAQ template and FAQ agent execute -/

/-- One decoded item of the JSON array returned by the generation client for
the FAQ prompt; either field may be missing from the decoded object. -/
structure RawFAQItem where
  question : Option String
  answer : Option String
deriving DecidableEq

/-- Structured FAQ page: page_type plus the list of question and answer
pairs. -/
structure FAQOutput where
  page_type : String
  faqs : List (String × String)
deriving DecidableEq

namespace FAQTemplate

/-- Modelled from the spec: FAQTemplate.build is called by
FAQGenerationAgent.execute (src/src/agents/faq_agent.py line 86) and by the
integration tests, but its definition is absent from the source snapshot.
Per the tests in src/tests/test_integration.py it returns a dict with
page_type "faq" and a faqs list with one entry per input item, and raises
ValueError when an item lacks the question or answer field. -/
def build (items : List RawFAQItem) : Except String FAQOutput :=
  if items.all (fun i => i.question.isSome && i.answer.isSome) then
    Except.ok { page_type := "faq"
                faqs := items.map (fun i => (i.question.getD "", i.answer.getD "")) }
  else
    Except.error "FAQ item missing required field"

end FAQTemplate

namespace FAQGenerationAgent

/-- FAQGenerationAgent.execute from src/src/agents/faq_agent.py lines 38-91,
with the external generation client stubbed: the stubbed client returns
client_items for the single generate_json call the body makes, and the body
passes that list to FAQTemplate.build. The product and question list feed
only the prompt text and do not otherwise affect the returned value. -/
def execute (product : Product) (questions : List Question)
    (client_items : List RawFAQItem) : Except String FAQOutput :=
  let _ := product
  let _ := questions
  FAQTemplate.build client_items

end FAQGenerationAgent

/-! ## Ingredient comparison, from src/src/content_blocks/generators.py -/

/-- Return value of compare_ingredients_block. The three computed fields are
Python sets (built with set intersection and difference), embedded as
finsets; the remaining fields copy product data. -/
structure IngredientComparisonBlock where
  product_a_name : String
  product_b_name : String
  product_a_ingredients : List String
  product_b_ingredients : List String
  common_ingredients : Finset String
  unique_to_product_a : Finset String
  unique_to_product_b : Finset String
  product_a_concentration : String
  product_b_concentration : String

/-- compare_ingredients_block from src/src/content_blocks/generators.py
lines 66-91: common = set(a) & set(b), unique_to_a = set(a) - set(b),
unique_to_b = set(b) - set(a). -/
def compare_ingredients_block (product_a product_b : Product) : IngredientComparisonBlock :=
  { product_a_name := product_a.name
    product_b_name := product_b.name
    product_a_ingredients := product_a.key_ingredients
    product_b_ingredients := product_b.key_ingredients
    common_ingredients := product_a.key_ingredients.toFinset ∩ product_b.key_ingredients.toFinset
    unique_to_product_a := product_a.key_ingredients.toFinset \ product_b.key_ingredients.toFinset
    unique_to_product_b := product_b.key_ingredients.toFinset \ product_a.key_ingredients.toFinset
    product_a_concentration := product_a.concentration
    product_b_concentration := product_b.concentration }

/-! ## Sequential pipeline runner, from src/src/orchestrator.py -/

namespace Orchestrator

/-- Orchestrator.run from src/src/orchestrator.py lines 40-57: walk the
pipeline name list in order; when a name is registered, replace the current
data with the output of that agents process method; names that are not
registered are passed over. The registry maps agent names to process
functions. -/
def run {α : Type} (agents : List (String × (α → α))) (pipeline : List String)
    (input_data : α) : α :=
  pipeline.foldl
    (fun current_data agent_name =>
      match agents.lookup agent_name with
      | some agent => agent current_data
      | none => current_data)
    input_data

end Orchestrator

/-! ## Dependency-ordered execution engine

Modelled from the spec: main.py line 106 and the integration tests call
AgentOrchestrator.execute_dag, but the AgentOrchestrator class is absent from
the source snapshot (src/src/orchestrator.py only defines the sequential
Orchestrator above). The engine below follows the algorithm of spec section
4.2: scan the remaining agents in registration order, run the first whose
canExecute predicate holds, commit its result into the shared context, and
fail fast with a graph configuration error when a full scan finds no runnable
agent. -/

/-- Failure modes of the engine: a graph configuration error (cycle or
missing dependency) or an agent execution failure surfaced to the caller. -/
inductive RunError
  | graphConfig
  | agentFailure (id : String) (msg : String)
deriving DecidableEq

/-- Modelled from the spec: an agent as the engine sees it, spec section 4.1:
an identity, declared dependency identities, and an execute capability that
reads the shared context and either returns a result or fails with a
message. -/
structure DAGAgent (α : Type) where
  identity : String
  dependencies : List String
  execute : List (String × α) → Except String α

/-- Modelled from the spec, section 4.1: canExecute returns true iff every
declared dependency identity is present in the completed set. -/
def DAGAgent.canExecute {α : Type} (a : DAGAgent α) (completed : List String) : Bool :=
  a.dependencies.all (fun d => completed.contains d)

/-- Scan a list of agents in order and return the first runnable one together
with the list of the others in their original order, or none when no agent is
runnable. -/
def pickRunnable {α : Type} (completed : List String) :
    List (DAGAgent α) → Option (DAGAgent α × List (DAGAgent α))
  | [] => none
  | a :: rest =>
    if a.canExecute completed then
      some (a, rest)
    else
      match pickRunnable completed rest with
      | some (b, rest2) => some (b, a :: rest2)
      | none => none

/-- Modelled from the spec, section 4.2 steps 3-4: repeatedly run the first
runnable remaining agent, committing its result into the shared context and
appending its identity to the completed list (which therefore also records
the execution order); when no remaining agent is runnable, fail with a graph
configuration error; when an agent fails, abort with that failure. Each
iteration removes exactly one agent from remaining, so a fuel equal to the
number of agents always suffices. Returns the outcome together with the
final completed list. -/
def runLoop {α : Type} :
    Nat → List (DAGAgent α) → List String → List (String × α) →
    Except RunError (List (String × α)) × List String
  | 0, remaining, completed, ctx =>
    if remaining.isEmpty then (Except.ok ctx, completed)
    else (Except.error RunError.graphConfig, completed)
  | fuel + 1, remaining, completed, ctx =>
    if remaining.isEmpty then (Except.ok ctx, completed)
    else
      match pickRunnable completed remaining with
      | none => (Except.error RunError.graphConfig, completed)
      | some (a, rest) =>
        match a.execute ctx with
        | Except.ok r =>
          runLoop fuel rest (completed ++ [a.identity]) (ctx ++ [(a.identity, r)])
        | Except.error msg => (Except.error (RunError.agentFailure a.identity msg), completed)

namespace AgentOrchestrator

/-- Modelled from the spec, section 4.2: the public executeAll operation of
the engine (execute_dag in main.py line 106, absent from the source
snapshot). The shared context starts with the reserved input entry; the
returned pair is the outcome (the accumulated shared context on success) and
the execution order. -/
def execute_dag {α : Type} (agents : List (DAGAgent α)) (input : α) :
    Except RunError (List (String × α)) × List String :=
  runLoop agents.length agents [] [("input", input)]

end AgentOrchestrator

/-- The parser agent as registered with the engine: no dependencies, reads
the reserved input entry and commits ParserAgent.process of it (the identity,
per src/src/agents/parser_agent.py). -/
def parserDAGAgent {α : Type} : DAGAgent α :=
  { identity := "parser"
    dependencies := []
    execute := fun ctx =>
      match ctx.lookup "input" with
      | some d => Except.ok (ParserAgent.process d)
      | none => Except.error "missing input" }

/-! ## Concrete instances used by witnesses and counterexamples -/

/-- Concrete parser agent over Nat results. -/
def cParser : DAGAgent Nat :=
  { identity := "parser", dependencies := [], execute := fun _ => Except.ok 1 }

/-- Concrete questions agent over Nat results, depending on parser. -/
def cQuestions : DAGAgent Nat :=
  { identity := "questions", dependencies := ["parser"], execute := fun _ => Except.ok 2 }

/-- Concrete faq agent over Nat results, depending on parser and questions. -/
def cFaq : DAGAgent Nat :=
  { identity := "faq", dependencies := ["parser", "questions"], execute := fun _ => Except.ok 3 }

/-- The three-agent registration in registration order. -/
def demoAgents : List (DAGAgent Nat) := [cParser, cQuestions, cFaq]

/-- A concrete well-formed product record (field values from the test
fixtures in src/tests/conftest.py). -/
def demoProduct : Product :=
  { name := "Test Vitamin C Serum"
    concentration := "10% Vitamin C"
    skin_type := ["Oily", "Combination"]
    key_ingredients := ["Vitamin C", "Hyaluronic Acid"]
    benefits := ["Brightening", "Fades dark spots"]
    how_to_use := "Apply 2-3 drops in the morning before sunscreen"
    side_effects := "Mild tingling for sensitive skin"
    price := "₹699" }

/-- A concrete question record. -/
def demoQuestion : Question :=
  { id := "q1", text := "What is this product?", category := "INFORMATIONAL", answer := none }

/-- Two complete FAQ items as a stubbed client response. -/
def demoFAQItems : List RawFAQItem :=
  [{ question := some "Q1", answer := some "A1" },
   { question := some "Q2", answer := some "A2" }]

/-- Registry with a single registered agent, used by the C9 witness. -/
def demoRegistry : List (String × (Nat → Nat)) := [("a", fun x => x + 1)]

/-- The execution order recorded by the engine is dependency-closed: an order
list is a valid continuation after the identities in done have completed when
each successive identity belongs only to agents whose declared dependencies
are all among done plus the earlier identities of the list. -/
def topoExtOK {α : Type} (agents : List (DAGAgent α)) : List String → List String → Prop
  | _, [] => True
  | done, id0 :: rest =>
    (∀ a ∈ agents, a.identity = id0 → ∀ d ∈ a.dependencies, d ∈ done) ∧
    topoExtOK agents (done ++ [id0]) rest

/-! ## Helper lemmas -/

theorem lookup_isSome_of_mem_keys {β : Type} {l : List (String × β)} {a : String}
    (h : a ∈ l.map Prod.fst) : (l.lookup a).isSome = true := by
  induction l with
  | nil => simp at h
  | cons p rest ih =>
    obtain ⟨k, v⟩ := p
    by_cases hk : a = k
    · subst hk
      simp [List.lookup]
    · have hm : a ∈ rest.map Prod.fst := by simpa [hk] using h
      have hbeq : (a == k) = false := beq_eq_false_iff_ne.mpr hk
      simp [List.lookup, hbeq, ih hm]

theorem contains_true_iff_mem {l : List String} {a : String} :
    l.contains a = true ↔ a ∈ l :=
  List.elem_iff

/-! ## Claim theorems: agents and content blocks -/

/-- Claim C6: for every decoded competitor payload, each of the eight product
fields that the payload omits is filled by ComparisonAgent with a fixed
non-empty default value, so the synthesized competing product record is a
complete product record. -/
theorem c6_comparison_default_filling (p : CompetitorPayload) :
    (p.name = none → (ComparisonAgent.fill_defaults p).name = "Competitor Vitamin C Serum")
  ∧ (p.concentration = none → (ComparisonAgent.fill_defaults p).concentration = "15% Vitamin C")
  ∧ (p.skin_type = none → (ComparisonAgent.fill_defaults p).skin_type = ["Normal", "Dry"])
  ∧ (p.key_ingredients = none →
      (ComparisonAgent.fill_defaults p).key_ingredients = ["Vitamin C", "Vitamin E"])
  ∧ (p.benefits = none → (ComparisonAgent.fill_defaults p).benefits = ["Brightening", "Anti-aging"])
  ∧ (p.how_to_use = none → (ComparisonAgent.fill_defaults p).how_to_use = "Apply 2-3 drops daily")
  ∧ (p.side_effects = none →
      (ComparisonAgent.fill_defaults p).side_effects = "May cause mild irritation")
  ∧ (p.price = none → (ComparisonAgent.fill_defaults p).price = "₹799")
  ∧ ("Competitor Vitamin C Serum" ≠ "" ∧ "15% Vitamin C" ≠ ""
      ∧ (["Normal", "Dry"] : List String) ≠ [] ∧ (["Vitamin C", "Vitamin E"] : List String) ≠ []
      ∧ (["Brightening", "Anti-aging"] : List String) ≠ []
      ∧ "Apply 2-3 drops daily" ≠ "" ∧ "May cause mild irritation" ≠ "" ∧ "₹799" ≠ "") := by
  refine ⟨?_, ?_, ?_, ?_, ?_, ?_, ?_, ?_, by decide⟩ <;>
    intro h <;> simp [ComparisonAgent.fill_defaults, h]

theorem c6_witness :
    (ComparisonAgent.fill_defaults
      { name := none, concentration := none, skin_type := none, key_ingredients := none,
        benefits := none, how_to_use := none, side_effects := none, price := none }).price =
      "₹799" :=
  (c6_comparison_default_filling _).2.2.2.2.2.2.2.1 rfl

/-- Claim C7: for every completed set, each can_execute returns true iff
every declared dependency identity is a member of the set; the embedding is a
pure function of its argument, so two calls with the same argument yield the
same result and no state is mutated. -/
theorem c7_can_execute_iff_dependencies (completed_agents : List String) :
    (QuestionGenerationAgent.can_execute completed_agents = true ↔
      ∀ d ∈ QuestionGenerationAgent.dependencies, d ∈ completed_agents)
  ∧ (FAQGenerationAgent.can_execute completed_agents = true ↔
      ∀ d ∈ FAQGenerationAgent.dependencies, d ∈ completed_agents)
  ∧ (ComparisonAgent.can_execute completed_agents = true ↔
      ∀ d ∈ ComparisonAgent.dependencies, d ∈ completed_agents)
  ∧ QuestionGenerationAgent.can_execute completed_agents =
      QuestionGenerationAgent.can_execute completed_agents
  ∧ FAQGenerationAgent.can_execute completed_agents =
      FAQGenerationAgent.can_execute completed_agents
  ∧ ComparisonAgent.can_execute completed_agents =
      ComparisonAgent.can_execute completed_agents := by
  refine ⟨?_, ?_, ?_, rfl, rfl, rfl⟩ <;>
    simp [QuestionGenerationAgent.can_execute, QuestionGenerationAgent.dependencies,
      FAQGenerationAgent.can_execute, FAQGenerationAgent.dependencies,
      ComparisonAgent.can_execute, ComparisonAgent.dependencies,
      contains_true_iff_mem]

/-- Claim C10: compare_ingredients_block partitions the two ingredient sets:
the three computed sets are pairwise disjoint, common joined with unique-to-a
is exactly the ingredient set of product a, and common joined with
unique-to-b is exactly the ingredient set of product b. -/
theorem c10_compare_ingredients_partition (product_a product_b : Product) :
    Disjoint (compare_ingredients_block product_a product_b).common_ingredients
      (compare_ingredients_block product_a product_b).unique_to_product_a
  ∧ Disjoint (compare_ingredients_block product_a product_b).common_ingredients
      (compare_ingredients_block product_a product_b).unique_to_product_b
  ∧ Disjoint (compare_ingredients_block product_a product_b).unique_to_product_a
      (compare_ingredients_block product_a product_b).unique_to_product_b
  ∧ (compare_ingredients_block product_a product_b).common_ingredients ∪
      (compare_ingredients_block product_a product_b).unique_to_product_a =
      product_a.key_ingredients.toFinset
  ∧ (compare_ingredients_block product_a product_b).common_ingredients ∪
      (compare_ingredients_block product_a product_b).unique_to_product_b =
      product_b.key_ingredients.toFinset := by
  simp only [compare_ingredients_block]
  refine ⟨?_, ?_, ?_, ?_, ?_⟩
  · rw [Finset.disjoint_left]
    intro x hx hy
    simp only [Finset.mem_inter, Finset.mem_sdiff] at hx hy
    tauto
  · rw [Finset.disjoint_left]
    intro x hx hy
    simp only [Finset.mem_inter, Finset.mem_sdiff] at hx hy
    tauto
  · rw [Finset.disjoint_left]
    intro x hx hy
    simp only [Finset.mem_sdiff] at hx hy
    tauto
  · ext x
    simp only [Finset.mem_union, Finset.mem_inter, Finset.mem_sdiff]
    tauto
  · ext x
    simp only [Finset.mem_union, Finset.mem_inter, Finset.mem_sdiff]
    tauto

/-- Claim C9: Orchestrator.run applies exactly the pipeline names that are
registered, in pipeline order; unregistered names are passed over without
raising; an empty pipeline, or a pipeline with no registered name, returns
the input unchanged. -/
theorem c9_run_skips_unregistered {α : Type} (agents : List (String × (α → α)))
    (pipeline : List String) (input_data : α) :
    Orchestrator.run agents pipeline input_data =
      Orchestrator.run agents (pipeline.filter (fun n => (agents.lookup n).isSome)) input_data
  ∧ Orchestrator.run agents [] input_data = input_data
  ∧ ((∀ n ∈ pipeline, agents.lookup n = none) →
      Orchestrator.run agents pipeline input_data = input_data) := by
  refine ⟨?_, rfl, ?_⟩
  · induction pipeline generalizing input_data with
    | nil => rfl
    | cons n rest ih =>
      cases hn : agents.lookup n with
      | none =>
        have hstep : Orchestrator.run agents (n :: rest) input_data =
            Orchestrator.run agents rest input_data := by
          simp [Orchestrator.run, List.foldl, hn]
        rw [hstep, List.filter_cons]
        simp only [hn, Option.isSome_none]
        exact ih input_data
      | some g =>
        have hstep : Orchestrator.run agents (n :: rest) input_data =
            Orchestrator.run agents rest (g input_data) := by
          simp [Orchestrator.run, List.foldl, hn]
        have hstep2 : Orchestrator.run agents
            ((n :: rest).filter (fun m => (agents.lookup m).isSome)) input_data =
            Orchestrator.run agents (rest.filter (fun m => (agents.lookup m).isSome))
              (g input_data) := by
          rw [List.filter_cons]
          simp only [hn, Option.isSome_some, if_pos]
          simp [Orchestrator.run, List.foldl, hn]
        rw [hstep, hstep2]
        exact ih (g input_data)
  · intro hall
    induction pipeline generalizing input_data with
    | nil => rfl
    | cons n rest ih =>
      have hn : agents.lookup n = none := hall n (List.mem_cons_self n rest)
      have hstep : Orchestrator.run agents (n :: rest) input_data =
          Orchestrator.run agents rest input_data := by
        simp [Orchestrator.run, List.foldl, hn]
      rw [hstep]
      exact ih input_data (fun m hm => hall m (List.mem_cons_of_mem n hm))

theorem c9_witness : Orchestrator.run demoRegistry ["x", "y"] 5 = 5 :=
  (c9_run_skips_unregistered demoRegistry ["x", "y"] 5).2.2 (by
    intro n hn
    rcases List.mem_cons.mp hn with rfl | hn2
    · rfl
    · rcases List.mem_cons.mp hn2 with rfl | hn3
      · rfl
      · exact absurd hn3 (List.not_mem_nil n))

/-! ## Claim C4: FAQ cardinality -/

/-- Counterexample to claim C4 as stated: with one input question (N = 1) and
a stubbed generation client returning two complete question and answer items,
FAQGenerationAgent.execute returns a Result with two entries, not one. The
output cardinality follows the client item list, not the input question
list. -/
theorem c4_counterexample :
    FAQGenerationAgent.execute demoProduct [demoQuestion] demoFAQItems =
      Except.ok { page_type := "faq", faqs := [("Q1", "A1"), ("Q2", "A2")] }
  ∧ ([demoQuestion].length = 1 ∧ ([("Q1", "A1"), ("Q2", "A2")] : List (String × String)).length = 2
      ∧ (2 : Nat) ≠ 1) :=
  ⟨rfl, rfl, rfl, by decide⟩

/-- Claim C4 (amended): for every product, question list and stubbed client
item list, when FAQGenerationAgent.execute succeeds its Result contains
exactly as many question and answer entries as the item list the stubbed
client returned; agreement with the input question count is not enforced. -/
theorem c4_faq_count_matches_client_items (product : Product) (questions : List Question)
    (client_items : List RawFAQItem) (out : FAQOutput)
    (hok : FAQGenerationAgent.execute product questions client_items = Except.ok out) :
    out.faqs.length = client_items.length := by
  unfold FAQGenerationAgent.execute FAQTemplate.build at hok
  by_cases hall : client_items.all (fun i => i.question.isSome && i.answer.isSome) = true
  · rw [if_pos hall] at hok
    cases hok
    simp
  · rw [if_neg hall] at hok
    simp at hok

theorem c4_witness :
    ({ page_type := "faq", faqs := [("Q1", "A1"), ("Q2", "A2")] } : FAQOutput).faqs.length =
      demoFAQItems.length :=
  c4_faq_count_matches_client_items demoProduct [demoQuestion] demoFAQItems _ rfl

/-! ## Claim C5: retry policy of the generation client -/

theorem generateAux_succ_success (outcomes : Nat → GenOutcome) (attempt n : Nat) (t : String)
    (he : outcomes attempt = GenOutcome.success t) :
    LLMClient.generateAux outcomes attempt (n + 1) = (Except.ok t, []) := by
  unfold LLMClient.generateAux
  simp [he]

theorem generateAux_succ_rate (outcomes : Nat → GenOutcome) (attempt n : Nat) (e : String)
    (he : outcomes attempt = GenOutcome.failure e) (hrate : isRateLimitError e = true) :
    LLMClient.generateAux outcomes attempt (n + 1) =
      ((LLMClient.generateAux outcomes (attempt + 1) n).1,
       (attempt + 1) * 10 :: (LLMClient.generateAux outcomes (attempt + 1) n).2) := by
  conv_lhs => unfold LLMClient.generateAux
  simp [he, hrate]

theorem generateAux_succ_nonrate (outcomes : Nat → GenOutcome) (attempt n : Nat) (e : String)
    (he : outcomes attempt = GenOutcome.failure e) (hrate : isRateLimitError e = false) :
    LLMClient.generateAux outcomes attempt (n + 1) =
      (Except.error (GenError.immediate e), []) := by
  unfold LLMClient.generateAux
  simp [he, hrate]

theorem generateAux_waits_ge (outcomes : Nat → GenOutcome) :
    ∀ (fuel attempt : Nat), ∀ w ∈ (LLMClient.generateAux outcomes attempt fuel).2,
      (attempt + 1) * 10 ≤ w := by
  intro fuel
  induction fuel with
  | zero => intro attempt w hw; simp [LLMClient.generateAux] at hw
  | succ n ih =>
    intro attempt w hw
    cases houtcome : outcomes attempt with
    | success t =>
      rw [generateAux_succ_success outcomes attempt n t houtcome] at hw
      simp at hw
    | failure e =>
      cases hrate : isRateLimitError e with
      | true =>
        rw [generateAux_succ_rate outcomes attempt n e houtcome hrate] at hw
        simp only [List.mem_cons] at hw
        rcases hw with rfl | hw
        · exact le_refl _
        · have := ih (attempt + 1) w hw
          omega
      | false =>
        rw [generateAux_succ_nonrate outcomes attempt n e houtcome hrate] at hw
        simp at hw

theorem generateAux_waits_chain (outcomes : Nat → GenOutcome) :
    ∀ (fuel attempt : Nat), List.Chain' (· < ·) (LLMClient.generateAux outcomes attempt fuel).2 := by
  intro fuel
  induction fuel with
  | zero => intro attempt; simp [LLMClient.generateAux]
  | succ n ih =>
    intro attempt
    cases houtcome : outcomes attempt with
    | success t =>
      rw [generateAux_succ_success outcomes attempt n t houtcome]
      simp
    | failure e =>
      cases hrate : isRateLimitError e with
      | true =>
        rw [generateAux_succ_rate outcomes attempt n e houtcome hrate]
        show List.Chain' (· < ·)
          ((attempt + 1) * 10 :: (LLMClient.generateAux outcomes (attempt + 1) n).2)
        rw [List.chain'_cons']
        refine ⟨?_, ih (attempt + 1)⟩
        intro b hb
        have hmem : b ∈ (LLMClient.generateAux outcomes (attempt + 1) n).2 :=
          List.mem_of_mem_head? hb
        have := generateAux_waits_ge outcomes n (attempt + 1) b hmem
        omega
      | false =>
        rw [generateAux_succ_nonrate outcomes attempt n e houtcome hrate]
        simp

theorem generateAux_all_rate (outcomes : Nat → GenOutcome) :
    ∀ (fuel attempt : Nat),
      (∀ k, k < fuel → ∃ e, outcomes (attempt + k) = GenOutcome.failure e ∧
        isRateLimitError e = true) →
      LLMClient.generateAux outcomes attempt fuel =
        (Except.error GenError.maxRetriesExceeded,
         (List.range fuel).map (fun k => (attempt + k + 1) * 10)) := by
  intro fuel
  induction fuel with
  | zero => intro attempt h; simp [LLMClient.generateAux]
  | succ n ih =>
    intro attempt h
    obtain ⟨e, he, hrate⟩ := h 0 (Nat.succ_pos n)
    rw [Nat.add_zero] at he
    have hshift : ∀ k, k < n → ∃ e2, outcomes (attempt + 1 + k) = GenOutcome.failure e2 ∧
        isRateLimitError e2 = true := by
      intro k hk
      obtain ⟨e2, he2, hr2⟩ := h (k + 1) (by omega)
      refine ⟨e2, ?_, hr2⟩
      have harith : attempt + 1 + k = attempt + (k + 1) := by omega
      rw [harith]
      exact he2
    have hmap : (List.range (n + 1)).map (fun k => (attempt + k + 1) * 10) =
        (attempt + 1) * 10 :: (List.range n).map (fun k => (attempt + 1 + k + 1) * 10) := by
      rw [List.range_succ_eq_map, List.map_cons, List.map_map]
      have hf : ((fun k => (attempt + k + 1) * 10) ∘ Nat.succ) =
          (fun k => (attempt + 1 + k + 1) * 10) := by
        funext k
        simp only [Function.comp]
        omega
      rw [hf]
    rw [generateAux_succ_rate outcomes attempt n e he hrate, ih (attempt + 1) hshift, hmap]

theorem generateAux_first_nonrate (outcomes : Nat → GenOutcome) :
    ∀ (j fuel attempt : Nat) (e : String), j < fuel →
      (∀ k, k < j → ∃ e2, outcomes (attempt + k) = GenOutcome.failure e2 ∧
        isRateLimitError e2 = true) →
      outcomes (attempt + j) = GenOutcome.failure e → isRateLimitError e = false →
      LLMClient.generateAux outcomes attempt fuel =
        (Except.error (GenError.immediate e),
         (List.range j).map (fun k => (attempt + k + 1) * 10)) := by
  intro j
  induction j with
  | zero =>
    intro fuel attempt e hj hpre he hrate
    cases fuel with
    | zero => omega
    | succ n =>
      rw [Nat.add_zero] at he
      rw [generateAux_succ_nonrate outcomes attempt n e he hrate]
      simp
  | succ j ih =>
    intro fuel attempt e hj hpre he hrate
    cases fuel with
    | zero => omega
    | succ n =>
      obtain ⟨e0, he0, hr0⟩ := hpre 0 (Nat.succ_pos j)
      rw [Nat.add_zero] at he0
      have hpre2 : ∀ k, k < j → ∃ e2, outcomes (attempt + 1 + k) = GenOutcome.failure e2 ∧
          isRateLimitError e2 = true := by
        intro k hk
        obtain ⟨e2, he2, hr2⟩ := hpre (k + 1) (by omega)
        refine ⟨e2, ?_, hr2⟩
        have harith : attempt + 1 + k = attempt + (k + 1) := by omega
        rw [harith]
        exact he2
      have he2 : outcomes (attempt + 1 + j) = GenOutcome.failure e := by
        have harith : attempt + 1 + j = attempt + (j + 1) := by omega
        rw [harith]
        exact he
      have hmap : (List.range (j + 1)).map (fun k => (attempt + k + 1) * 10) =
          (attempt + 1) * 10 :: (List.range j).map (fun k => (attempt + 1 + k + 1) * 10) := by
        rw [List.range_succ_eq_map, List.map_cons, List.map_map]
        have hf : ((fun k => (attempt + k + 1) * 10) ∘ Nat.succ) =
            (fun k => (attempt + 1 + k + 1) * 10) := by
          funext k
          simp only [Function.comp]
          omega
        rw [hf]
      rw [generateAux_succ_rate outcomes attempt n e0 he0 hr0,
        ih n (attempt + 1) e (by omega) hpre2 he2 hrate, hmap]

/-- Claim C5: the generation client retries rate-limit-like failures with
strictly increasing waits up to the configured maximum number of attempts;
any other failure is re-raised immediately after the waits performed so far;
and when every attempt fails with a rate-limit-like failure it raises a
retries-exceeded failure after the budget is exhausted, having waited
10, 20, ... seconds. -/
theorem c5_generate_retry_policy (outcomes : Nat → GenOutcome) (max_retries : Nat) :
    List.Chain' (· < ·) (LLMClient.generate outcomes max_retries).2
  ∧ ((∀ k, k < max_retries → ∃ e, outcomes k = GenOutcome.failure e ∧
        isRateLimitError e = true) →
      LLMClient.generate outcomes max_retries =
        (Except.error GenError.maxRetriesExceeded,
         (List.range max_retries).map (fun k => (k + 1) * 10)))
  ∧ (∀ j e, j < max_retries →
      (∀ k, k < j → ∃ e2, outcomes k = GenOutcome.failure e2 ∧ isRateLimitError e2 = true) →
      outcomes j = GenOutcome.failure e → isRateLimitError e = false →
      LLMClient.generate outcomes max_retries =
        (Except.error (GenError.immediate e), (List.range j).map (fun k => (k + 1) * 10))) := by
  refine ⟨generateAux_waits_chain outcomes max_retries 0, ?_, ?_⟩
  · intro h
    have := generateAux_all_rate outcomes max_retries 0 (by
      intro k hk
      simpa using h k hk)
    simpa [LLMClient.generate] using this
  · intro j e hj hpre he hrate
    have := generateAux_first_nonrate outcomes j max_retries 0 e hj (by
      intro k hk
      simpa using hpre k hk) (by simpa using he) hrate
    simpa [LLMClient.generate] using this

theorem c5_witness :
    LLMClient.generate (fun _ => GenOutcome.failure "429") 3 =
      (Except.error GenError.maxRetriesExceeded, (List.range 3).map (fun k => (k + 1) * 10)) :=
  (c5_generate_retry_policy (fun _ => GenOutcome.failure "429") 3).2.1
    (fun k _ => ⟨"429", rfl, by decide⟩)

/-! ## Engine lemmas -/

theorem canExecute_true_iff {α : Type} (a : DAGAgent α) (completed : List String) :
    a.canExecute completed = true ↔ ∀ d ∈ a.dependencies, d ∈ completed := by
  simp [DAGAgent.canExecute, List.all_eq_true, contains_true_iff_mem]

theorem pickRunnable_sound {α : Type} (completed : List String) :
    ∀ (remaining rest : List (DAGAgent α)) (a : DAGAgent α),
      pickRunnable completed remaining = some (a, rest) →
      a ∈ remaining ∧ a.canExecute completed = true ∧
      (∀ b ∈ remaining, b = a ∨ b ∈ rest) ∧ (∀ b ∈ rest, b ∈ remaining) := by
  intro remaining
  induction remaining with
  | nil => intro rest a h; simp [pickRunnable] at h
  | cons x xs ih =>
    intro rest a h
    unfold pickRunnable at h
    by_cases hx : x.canExecute completed = true
    · rw [if_pos hx] at h
      rw [Option.some.injEq, Prod.mk.injEq] at h
      obtain ⟨h1, h2⟩ := h
      subst h1
      subst h2
      refine ⟨List.mem_cons_self x xs, hx, ?_, ?_⟩
      · intro b hb
        exact List.mem_cons.mp hb
      · intro b hb
        exact List.mem_cons_of_mem x hb
    · rw [if_neg hx] at h
      cases hpr : pickRunnable completed xs with
      | none => rw [hpr] at h; simp at h
      | some p =>
        obtain ⟨b, rest2⟩ := p
        rw [hpr] at h
        rw [Option.some.injEq, Prod.mk.injEq] at h
        obtain ⟨h1, h2⟩ := h
        subst h1
        subst h2
        obtain ⟨hmem, hcan, hall, hsub⟩ := ih rest2 b hpr
        refine ⟨List.mem_cons_of_mem x hmem, hcan, ?_, ?_⟩
        · intro c hc
          rcases List.mem_cons.mp hc with rfl | hc2
          · exact Or.inr (List.mem_cons_self c rest2)
          · rcases hall c hc2 with rfl | hc3
            · exact Or.inl rfl
            · exact Or.inr (List.mem_cons_of_mem x hc3)
        · intro c hc
          rcases List.mem_cons.mp hc with rfl | hc2
          · exact List.mem_cons_self c xs
          · exact List.mem_cons_of_mem x (hsub c hc2)

theorem runLoop_topo {α : Type} (agents : List (DAGAgent α))
    (hnodup : (agents.map DAGAgent.identity).Nodup) :
    ∀ (fuel : Nat) (remaining : List (DAGAgent α)) (completed : List String)
      (ctx : List (String × α)),
      (∀ b ∈ remaining, b ∈ agents) →
      ∃ suffix, (runLoop fuel remaining completed ctx).2 = completed ++ suffix ∧
        topoExtOK agents completed suffix := by
  intro fuel
  induction fuel with
  | zero =>
    intro remaining completed ctx hsub
    refine ⟨[], ?_, ?_⟩
    · cases hrem : remaining.isEmpty <;> simp [runLoop, hrem]
    · simp [topoExtOK]
  | succ n ih =>
    intro remaining completed ctx hsub
    cases hrem : remaining.isEmpty with
    | true =>
      refine ⟨[], by simp [runLoop, hrem], by simp [topoExtOK]⟩
    | false =>
      cases hpick : pickRunnable completed remaining with
      | none =>
        refine ⟨[], by simp [runLoop, hrem, hpick], by simp [topoExtOK]⟩
      | some p =>
        obtain ⟨a, rest⟩ := p
        obtain ⟨hmem, hcan, hall, hrestsub⟩ := pickRunnable_sound completed remaining rest a hpick
        cases hex : a.execute ctx with
        | ok r =>
          obtain ⟨s, hs, htopo⟩ :=
            ih rest (completed ++ [a.identity]) (ctx ++ [(a.identity, r)])
              (fun b hb => hsub b (hrestsub b hb))
          refine ⟨a.identity :: s, ?_, ?_, ?_⟩
          · rw [show (runLoop (n + 1) remaining completed ctx).2 =
                (runLoop n rest (completed ++ [a.identity]) (ctx ++ [(a.identity, r)])).2 by
              simp [runLoop, hrem, hpick, hex]]
            rw [hs]
            simp
          · intro b hb hid d hd
            have hba : b = a :=
              List.inj_on_of_nodup_map hnodup hb (hsub a hmem) (by rw [hid])
            subst hba
            exact (canExecute_true_iff b completed).mp hcan d hd
          · exact htopo
        | error msg =>
          refine ⟨[], by simp [runLoop, hrem, hpick, hex], by simp [topoExtOK]⟩

theorem topoExtOK_position {α : Type} (agents : List (DAGAgent α)) :
    ∀ (order done : List String), topoExtOK agents done order →
      ∀ a ∈ agents, ∀ (i : Nat),
        order[i]? = some a.identity →
        ∀ d ∈ a.dependencies, d ∈ done ++ order.take i := by
  intro order
  induction order with
  | nil =>
    intro done h a ha i hid
    simp at hid
  | cons id0 rest ih =>
    intro done h a ha i hid d hd
    obtain ⟨h1, h2⟩ := h
    cases i with
    | zero =>
      simp only [List.getElem?_cons_zero, Option.some.injEq] at hid
      have hdone := h1 a ha hid.symm d hd
      simp [hdone]
    | succ j =>
      simp only [List.getElem?_cons_succ] at hid
      have hres := ih (done ++ [id0]) h2 a ha j hid d hd
      rw [List.append_assoc] at hres
      simpa [List.take_succ_cons] using hres

/-! ## Claim theorems: execution engine -/

/-- Claim C1: for every registered agent set with distinct identities and
every input, the execution order produced by execute_dag is a valid
topological order of the dependency graph: whenever an identity at position i
of the order belongs to a registered agent, every declared dependency of that
agent occurs strictly before position i. -/
theorem c1_execute_dag_topological_order {α : Type} (agents : List (DAGAgent α)) (input : α)
    (hnodup : (agents.map DAGAgent.identity).Nodup) :
    ∀ a ∈ agents, ∀ (i : Nat),
      (AgentOrchestrator.execute_dag agents input).2[i]? = some a.identity →
      ∀ d ∈ a.dependencies, d ∈ (AgentOrchestrator.execute_dag agents input).2.take i := by
  intro a ha i hid d hd
  obtain ⟨s, hs, htopo⟩ :=
    runLoop_topo agents hnodup agents.length agents [] [("input", input)] (fun b hb => hb)
  have horder : (AgentOrchestrator.execute_dag agents input).2 = s := by
    simpa [AgentOrchestrator.execute_dag] using hs
  rw [horder] at hid ⊢
  have := topoExtOK_position agents s [] htopo a ha i hid d hd
  simpa using this

theorem c1_witness :
    ((demoAgents.map DAGAgent.identity).Nodup) ∧
    (∀ a ∈ demoAgents, ∀ (i : Nat),
      (AgentOrchestrator.execute_dag demoAgents 0).2[i]? = some a.identity →
      ∀ d ∈ a.dependencies, d ∈ (AgentOrchestrator.execute_dag demoAgents 0).2.take i) :=
  ⟨by decide, c1_execute_dag_topological_order demoAgents 0 (by decide)⟩

theorem runLoop_order_extends {α : Type} :
    ∀ (fuel : Nat) (remaining : List (DAGAgent α)) (completed : List String)
      (ctx : List (String × α)),
      ∃ suffix, (runLoop fuel remaining completed ctx).2 = completed ++ suffix := by
  intro fuel
  induction fuel with
  | zero =>
    intro remaining completed ctx
    refine ⟨[], ?_⟩
    cases hrem : remaining.isEmpty <;> simp [runLoop, hrem]
  | succ n ih =>
    intro remaining completed ctx
    cases hrem : remaining.isEmpty with
    | true => exact ⟨[], by simp [runLoop, hrem]⟩
    | false =>
      cases hpick : pickRunnable completed remaining with
      | none => exact ⟨[], by simp [runLoop, hrem, hpick]⟩
      | some p =>
        obtain ⟨a, rest⟩ := p
        cases hex : a.execute ctx with
        | ok r =>
          obtain ⟨s, hs⟩ := ih rest (completed ++ [a.identity]) (ctx ++ [(a.identity, r)])
          refine ⟨a.identity :: s, ?_⟩
          rw [show (runLoop (n + 1) remaining completed ctx).2 =
              (runLoop n rest (completed ++ [a.identity]) (ctx ++ [(a.identity, r)])).2 by
            simp [runLoop, hrem, hpick, hex]]
          rw [hs]
          simp
        | error msg => exact ⟨[], by simp [runLoop, hrem, hpick, hex]⟩

theorem runLoop_ok_keys {α : Type} :
    ∀ (fuel : Nat) (remaining : List (DAGAgent α)) (completed : List String)
      (ctx : List (String × α)) (pre : List String) (ctx2 : List (String × α)),
      ctx.map Prod.fst = pre ++ completed →
      (runLoop fuel remaining completed ctx).1 = Except.ok ctx2 →
      ctx2.map Prod.fst = pre ++ (runLoop fuel remaining completed ctx).2 := by
  intro fuel
  induction fuel with
  | zero =>
    intro remaining completed ctx pre ctx2 hmap hok
    cases hrem : remaining.isEmpty with
    | true =>
      simp [runLoop, hrem] at hok ⊢
      subst hok
      exact hmap
    | false => simp [runLoop, hrem] at hok
  | succ n ih =>
    intro remaining completed ctx pre ctx2 hmap hok
    cases hrem : remaining.isEmpty with
    | true =>
      simp [runLoop, hrem] at hok ⊢
      subst hok
      exact hmap
    | false =>
      cases hpick : pickRunnable completed remaining with
      | none => simp [runLoop, hrem, hpick] at hok
      | some p =>
        obtain ⟨a, rest⟩ := p
        cases hex : a.execute ctx with
        | ok r =>
          have hstep : runLoop (n + 1) remaining completed ctx =
              runLoop n rest (completed ++ [a.identity]) (ctx ++ [(a.identity, r)]) := by
            simp [runLoop, hrem, hpick, hex]
          rw [hstep] at hok ⊢
          exact ih rest (completed ++ [a.identity]) (ctx ++ [(a.identity, r)]) pre ctx2
            (by simp [hmap]) hok
        | error msg => simp [runLoop, hrem, hpick, hex] at hok

theorem runLoop_ok_all_ran {α : Type} :
    ∀ (fuel : Nat) (remaining : List (DAGAgent α)) (completed : List String)
      (ctx : List (String × α)) (ctx2 : List (String × α)),
      (runLoop fuel remaining completed ctx).1 = Except.ok ctx2 →
      ∀ b ∈ remaining, b.identity ∈ (runLoop fuel remaining completed ctx).2 := by
  intro fuel
  induction fuel with
  | zero =>
    intro remaining completed ctx ctx2 hok b hb
    cases hrem : remaining.isEmpty with
    | true =>
      rw [List.isEmpty_iff] at hrem
      subst hrem
      simp at hb
    | false => simp [runLoop, hrem] at hok
  | succ n ih =>
    intro remaining completed ctx ctx2 hok b hb
    cases hrem : remaining.isEmpty with
    | true =>
      rw [List.isEmpty_iff] at hrem
      subst hrem
      simp at hb
    | false =>
      cases hpick : pickRunnable completed remaining with
      | none => simp [runLoop, hrem, hpick] at hok
      | some p =>
        obtain ⟨a, rest⟩ := p
        cases hex : a.execute ctx with
        | ok r =>
          have hstep : runLoop (n + 1) remaining completed ctx =
              runLoop n rest (completed ++ [a.identity]) (ctx ++ [(a.identity, r)]) := by
            simp [runLoop, hrem, hpick, hex]
          rw [hstep] at hok ⊢
          obtain ⟨hmem, hcan, hall, hsub⟩ := pickRunnable_sound completed remaining rest a hpick
          rcases hall b hb with rfl | hb2
          · obtain ⟨s, hs⟩ :=
              runLoop_order_extends n rest (completed ++ [b.identity]) (ctx ++ [(b.identity, r)])
            rw [hs]
            simp
          · exact ih rest (completed ++ [a.identity]) (ctx ++ [(a.identity, r)]) ctx2 hok b hb2
        | error msg => simp [runLoop, hrem, hpick, hex] at hok

theorem runLoop_ctx_extends {α : Type} :
    ∀ (fuel : Nat) (remaining : List (DAGAgent α)) (completed : List String)
      (ctx : List (String × α)) (ctx2 : List (String × α)),
      (runLoop fuel remaining completed ctx).1 = Except.ok ctx2 →
      ∃ tail, ctx2 = ctx ++ tail := by
  intro fuel
  induction fuel with
  | zero =>
    intro remaining completed ctx ctx2 hok
    cases hrem : remaining.isEmpty with
    | true =>
      simp [runLoop, hrem] at hok
      subst hok
      exact ⟨[], by simp⟩
    | false => simp [runLoop, hrem] at hok
  | succ n ih =>
    intro remaining completed ctx ctx2 hok
    cases hrem : remaining.isEmpty with
    | true =>
      simp [runLoop, hrem] at hok
      subst hok
      exact ⟨[], by simp⟩
    | false =>
      cases hpick : pickRunnable completed remaining with
      | none => simp [runLoop, hrem, hpick] at hok
      | some p =>
        obtain ⟨a, rest⟩ := p
        cases hex : a.execute ctx with
        | ok r =>
          have hstep : runLoop (n + 1) remaining completed ctx =
              runLoop n rest (completed ++ [a.identity]) (ctx ++ [(a.identity, r)]) := by
            simp [runLoop, hrem, hpick, hex]
          rw [hstep] at hok
          obtain ⟨tail, htail⟩ :=
            ih rest (completed ++ [a.identity]) (ctx ++ [(a.identity, r)]) ctx2 hok
          exact ⟨(a.identity, r) :: tail, by simp [htail]⟩
        | error msg => simp [runLoop, hrem, hpick, hex] at hok

/-- Claim C2: when execute_dag succeeds, the returned value is the
accumulated shared store: its keys are the reserved input key followed by the
identities of the agents in completion order, every registered agent has an
entry under its identity, and the reserved input entry still maps to the
initial input record. In particular the store holds one committed Result per
completed agent, not merely the output of the last agent executed. -/
theorem c2_execute_dag_returns_store {α : Type} (agents : List (DAGAgent α)) (input : α)
    (ctx2 : List (String × α))
    (hok : (AgentOrchestrator.execute_dag agents input).1 = Except.ok ctx2) :
    ctx2.map Prod.fst = "input" :: (AgentOrchestrator.execute_dag agents input).2
  ∧ (∀ a ∈ agents, a.identity ∈ (AgentOrchestrator.execute_dag agents input).2)
  ∧ (∀ a ∈ agents, (ctx2.lookup a.identity).isSome = true)
  ∧ ctx2.lookup "input" = some input := by
  have hok2 : (runLoop agents.length agents [] [("input", input)]).1 = Except.ok ctx2 := hok
  have hkeys :=
    runLoop_ok_keys agents.length agents [] [("input", input)] ["input"] ctx2 (by simp) hok2
  have hran := runLoop_ok_all_ran agents.length agents [] [("input", input)] ctx2 hok2
  refine ⟨hkeys, hran, ?_, ?_⟩
  · intro a ha
    apply lookup_isSome_of_mem_keys
    rw [hkeys]
    exact List.mem_cons_of_mem _ (hran a ha)
  · obtain ⟨tail, htail⟩ :=
      runLoop_ctx_extends agents.length agents [] [("input", input)] ctx2 hok2
    subst htail
    simp [List.lookup]

theorem c2_witness :
    (([("input", 0), ("parser", 1), ("questions", 2), ("faq", 3)] :
        List (String × Nat)).map Prod.fst =
      "input" :: (AgentOrchestrator.execute_dag demoAgents 0).2)
  ∧ (∀ a ∈ demoAgents, a.identity ∈ (AgentOrchestrator.execute_dag demoAgents 0).2)
  ∧ (∀ a ∈ demoAgents,
      (([("input", 0), ("parser", 1), ("questions", 2), ("faq", 3)] :
        List (String × Nat)).lookup a.identity).isSome = true)
  ∧ ([("input", 0), ("parser", 1), ("questions", 2), ("faq", 3)] :
      List (String × Nat)).lookup "input" = some 0 :=
  c2_execute_dag_returns_store demoAgents 0
    [("input", 0), ("parser", 1), ("questions", 2), ("faq", 3)] rfl

theorem runLoop_stuck {α : Type} (agents : List (DAGAgent α)) (a : DAGAgent α) (d : String)
    (hnodup : (agents.map DAGAgent.identity).Nodup)
    (hd : d ∈ a.dependencies)
    (hmiss : d ∉ agents.map DAGAgent.identity)
    (hnofail : ∀ b ∈ agents, ∀ c, ∃ r, b.execute c = Except.ok r) :
    ∀ (fuel : Nat) (remaining : List (DAGAgent α)) (completed : List String)
      (ctx : List (String × α)),
      (∀ b ∈ remaining, b ∈ agents) → a ∈ remaining →
      d ∉ completed → a.identity ∉ completed →
      (runLoop fuel remaining completed ctx).1 = Except.error RunError.graphConfig ∧
      a.identity ∉ (runLoop fuel remaining completed ctx).2 := by
  intro fuel
  induction fuel with
  | zero =>
    intro remaining completed ctx hsub hain hdnc hanc
    have hne : remaining.isEmpty = false := by
      cases remaining with
      | nil => exact absurd hain (List.not_mem_nil a)
      | cons x xs => rfl
    constructor
    · simp [runLoop, hne]
    · simp only [runLoop, hne]
      simpa using hanc
  | succ n ih =>
    intro remaining completed ctx hsub hain hdnc hanc
    have hne : remaining.isEmpty = false := by
      cases remaining with
      | nil => exact absurd hain (List.not_mem_nil a)
      | cons x xs => rfl
    have hcanA : a.canExecute completed = false := by
      cases hc : a.canExecute completed with
      | false => rfl
      | true => exact absurd ((canExecute_true_iff a completed).mp hc d hd) hdnc
    cases hpick : pickRunnable completed remaining with
    | none =>
      constructor
      · simp [runLoop, hne, hpick]
      · simp only [runLoop, hne, hpick]
        simpa using hanc
    | some p =>
      obtain ⟨b, rest⟩ := p
      obtain ⟨hbmem, hbcan, hall, hrestsub⟩ := pickRunnable_sound completed remaining rest b hpick
      have hba : b ≠ a := by
        intro heq
        rw [heq, hcanA] at hbcan
        cases hbcan
      obtain ⟨r, hr⟩ := hnofail b (hsub b hbmem) ctx
      have hain2 : a ∈ rest := by
        rcases hall a hain with heq | hmem2
        · exact absurd heq.symm hba
        · exact hmem2
      have hbid : b.identity ∈ agents.map DAGAgent.identity :=
        List.mem_map_of_mem DAGAgent.identity (hsub b hbmem)
      have hdne : d ≠ b.identity := by
        intro h
        exact hmiss (h ▸ hbid)
      have haidne : a.identity ≠ b.identity := by
        intro h
        exact hba (List.inj_on_of_nodup_map hnodup (hsub b hbmem) (hsub a hain) h.symm)
      have hdnc2 : d ∉ completed ++ [b.identity] := by
        intro hmem
        rcases List.mem_append.mp hmem with h1 | h1
        · exact hdnc h1
        · exact hdne (List.mem_singleton.mp h1)
      have hanc2 : a.identity ∉ completed ++ [b.identity] := by
        intro hmem
        rcases List.mem_append.mp hmem with h1 | h1
        · exact hanc h1
        · exact haidne (List.mem_singleton.mp h1)
      have hres := ih rest (completed ++ [b.identity]) (ctx ++ [(b.identity, r)])
        (fun c hc => hsub c (hrestsub c hc)) hain2 hdnc2 hanc2
      have hstep : runLoop (n + 1) remaining completed ctx =
          runLoop n rest (completed ++ [b.identity]) (ctx ++ [(b.identity, r)]) := by
        simp [runLoop, hne, hpick, hr]
      rw [hstep]
      exact hres

/-- Claim C3 (amended): when some registered agent declares a dependency
identity that is never registered, and no agent execution itself fails,
execute_dag raises the graph configuration error rather than skipping the
agent or looping forever, and the dependent agent itself never executes;
agents whose dependencies are met may however execute before the error is
raised, so the error is not necessarily raised before any agent executes. -/
theorem c3_missing_dependency_graph_error {α : Type} (agents : List (DAGAgent α)) (input : α)
    (a : DAGAgent α) (d : String)
    (hnodup : (agents.map DAGAgent.identity).Nodup)
    (ha : a ∈ agents) (hd : d ∈ a.dependencies)
    (hmiss : d ∉ agents.map DAGAgent.identity)
    (hnofail : ∀ b ∈ agents, ∀ c, ∃ r, b.execute c = Except.ok r) :
    (AgentOrchestrator.execute_dag agents input).1 = Except.error RunError.graphConfig
  ∧ a.identity ∉ (AgentOrchestrator.execute_dag agents input).2 :=
  runLoop_stuck agents a d hnodup hd hmiss hnofail agents.length agents [] [("input", input)]
    (fun b hb => hb) ha (List.not_mem_nil d) (List.not_mem_nil a.identity)

theorem c3_witness :
    ((AgentOrchestrator.execute_dag [cParser, cFaq] (0 : Nat)).1 =
      Except.error RunError.graphConfig)
  ∧ cFaq.identity ∉ (AgentOrchestrator.execute_dag [cParser, cFaq] (0 : Nat)).2 :=
  c3_missing_dependency_graph_error [cParser, cFaq] 0 cFaq "questions" (by decide)
    (List.mem_cons_of_mem cParser (List.mem_cons_self cFaq [])) (by decide) (by decide)
    (by
      intro b hb c
      rcases List.mem_cons.mp hb with rfl | hb2
      · exact ⟨1, rfl⟩
      · rcases List.mem_cons.mp hb2 with rfl | hb3
        · exact ⟨3, rfl⟩
        · exact absurd hb3 (List.not_mem_nil b))

/-- Counterexample to claim C3 as stated: with the registration
[cParser, cFaq], where cFaq declares the never-registered dependency
"questions", the run does raise the graph configuration error, but the
recorded execution order is ["parser"], not []: the parser agent executed
before the error was raised, so the error is not raised before any agent
executes. -/
theorem c3_counterexample :
    AgentOrchestrator.execute_dag [cParser, cFaq] (0 : Nat) =
      (Except.error RunError.graphConfig, ["parser"])
  ∧ (["parser"] : List String) ≠ [] :=
  ⟨rfl, by decide⟩

/-- Claim C8: running the engine on a pipeline containing only the Parser
agent commits, under the identity "parser", a Result structurally equal to
the input record, because ParserAgent.process is the identity on its
input. -/
theorem c8_parser_round_trip {α : Type} (input_data : α) :
    AgentOrchestrator.execute_dag [parserDAGAgent] input_data =
      (Except.ok [("input", input_data), ("parser", input_data)], ["parser"])
  ∧ ParserAgent.process input_data = input_data :=
  ⟨rfl, rfl⟩
